import Mathlib

/-!
Verification development for the `rmssd` repository (src/rmssd/rmssd.cpp,
src/rmssd/InvalidArgument.h).

The C++ core is a pair of function templates, `loadIntervals<T>` and
`calculateRMSSD<T>`, generic in the floating-point type `T`, plus a `main`
driver that instantiates them at `float`, `double` and `long double` with and
without 3-decimal-place rounding.  We mirror that genericity: `FPRep α`
packages the arithmetic operations a representation `T` supplies (the fields
correspond one-to-one to the operations the C++ templates use), the pipeline
functions are translated over an arbitrary `FPRep`, and exceptions become
`Except` values.  `ratRep` instantiates the operations with exact rational
arithmetic so that concrete runs can be evaluated.

A separate small model (`FPWidth`, `ArithOp`, `calculateOps`) records, for
each arithmetic operation the C++ code performs, the floating-point width the
source expression evaluates it in, for the claims about widths.
-/

/-- The error conditions of the program.  In the C++ source, SourceUnavailable
(rmssd.cpp:70) and InsufficientSamples (rmssd.cpp:107) are thrown as the
custom `InvalidArgument` class of InvalidArgument.h, while MalformedSample is
`std::invalid_argument` / `std::out_of_range` thrown by `std::stof` /
`std::stod` / `std::stold` inside `stringToFP` (rmssd.cpp:41-54). -/
inductive RMSSDError where
  | sourceUnavailable
  | malformedSample
  | insufficientSamples
  deriving DecidableEq, Repr

/-- The operations a floating-point representation `T` supplies to the C++
templates `loadIntervals<T>` and `calculateRMSSD<T>`: arithmetic, the
width-specific `squareroot` (rmssd.cpp:18-34), the C `round` overload, the
conversion `static_cast<T>` of a `size_t` count (rmssd.cpp:149) and of the
`double` result of `std::pow(10.0, roundTo)` (rmssd.cpp:83, captured as the
value `multiplier10`), the width-specific parse `stringToFP` (rmssd.cpp:38-54,
`none` models the `std::invalid_argument` / `std::out_of_range` throw), and
the order on values.  The pipeline is defined over an arbitrary `FPRep`,
exactly as the C++ is a template over `T`. -/
structure FPRep (α : Type) where
  zero : α
  add : α → α → α
  sub : α → α → α
  mul : α → α → α
  div : α → α → α
  sqrt : α → α
  round : α → α
  ofNat : Nat → α
  multiplier10 : Nat → α
  parse : String → Option α
  le : α → α → Prop

/-- The rounding step of `loadIntervals` (rmssd.cpp:81-85): when
`roundTo >= 0`, compute `round(num * multiplier) / multiplier` where
`multiplier = static_cast<T>(std::pow(10.0, roundTo))`; otherwise leave the
value unchanged. -/
def applyRound {α : Type} (rep : FPRep α) (roundTo : Int) (v : α) : α :=
  if 0 ≤ roundTo then
    rep.div (rep.round (rep.mul v (rep.multiplier10 roundTo.toNat)))
      (rep.multiplier10 roundTo.toNat)
  else v

/-- Translation of `loadIntervals<T>` (rmssd.cpp:60-93) on an already-opened
source, given as the list of its lines (`std::getline` loop): each line is
parsed by `stringToFP<T>`, optionally rounded, and appended in order.  A parse
failure throws, which aborts the whole load with `malformedSample`. -/
def loadIntervals {α : Type} (rep : FPRep α) (lines : List String)
    (roundTo : Int) : Except RMSSDError (List α) :=
  match lines with
  | [] => .ok []
  | l :: ls =>
    match rep.parse l with
    | none => .error .malformedSample
    | some v =>
      match loadIntervals rep ls roundTo with
      | .error e => .error e
      | .ok rest => .ok (applyRound rep roundTo v :: rest)

/-- The difference loop of `calculateRMSSD` (rmssd.cpp:124-134): iterate over
the intervals keeping the previous element; for every element except the
first, push `*it - prev`.  The `Option` state models the not-yet-assigned
`T prev` before the first iteration. -/
def diffLoop {α : Type} (rep : FPRep α) : Option α → List α → List α
  | _, [] => []
  | none, x :: xs => diffLoop rep (some x) xs
  | some p, x :: xs => rep.sub x p :: diffLoop rep (some x) xs

/-- The in-place squaring loop of `calculateRMSSD` (rmssd.cpp:137-140):
`diff *= diff` for each element. -/
def squareAll {α : Type} (rep : FPRep α) (diffs : List α) : List α :=
  diffs.map fun d => rep.mul d d

/-- The part of `calculateRMSSD<T>` (rmssd.cpp:100-155) after loading: the
size check (throwing `insufficientSamples` when fewer than 2 intervals), the
difference loop, the squaring loop, the left-to-right summation starting from
`static_cast<T>(0.0)` (rmssd.cpp:144-148), the division by
`static_cast<T>(diffs.size())` (rmssd.cpp:149), and the width-specific square
root (rmssd.cpp:152). -/
def rmssdOfIntervals {α : Type} (rep : FPRep α) (intervals : List α) :
    Except RMSSDError α :=
  if intervals.length < 2 then .error .insufficientSamples
  else
    let diffs := diffLoop rep none intervals
    let squares := squareAll rep diffs
    let sum := squares.foldl rep.add rep.zero
    let mean := rep.div sum (rep.ofNat squares.length)
    .ok (rep.sqrt mean)

/-- Translation of `calculateRMSSD<T>` (rmssd.cpp:99-155): load the intervals,
then run the calculation; a load failure propagates (the C++ exception). -/
def calculateRMSSD {α : Type} (rep : FPRep α) (lines : List String)
    (roundTo : Int) : Except RMSSDError α :=
  match loadIntervals rep lines roundTo with
  | .error e => .error e
  | .ok intervals => rmssdOfIntervals rep intervals

/-- The RMSSD formula in the spec's words: the difference sequence
`diff[i-1] = sample[i] − sample[i-1]`, each difference squared, the squares
summed by left-to-right accumulation from the representation's exact zero,
the sum divided by `n − 1`, and the square root of that mean. -/
def rmssdSpec {α : Type} (rep : FPRep α) (s : List α) : α :=
  let diffs := (s.zip s.tail).map fun p => rep.sub p.2 p.1
  let squares := diffs.map fun d => rep.mul d d
  let sum := squares.foldl rep.add rep.zero
  rep.sqrt (rep.div sum (rep.ofNat (s.length - 1)))

/-- Nearest-integer rounding with ties away from zero, the contract of the C
`round` family used at rmssd.cpp:84, as a function on exact rationals. -/
def croundQ (q : ℚ) : ℤ :=
  if 0 ≤ q then ⌊q + 1 / 2⌋ else ⌈q - 1 / 2⌉

/-- Exact natural square root by search: `some k` when `k * k = n`, `none`
when `n` is not a perfect square. -/
def exactSqrt (n : Nat) : Option Nat :=
  (List.range (n + 1)).find? fun k => k * k == n

/-- Exact square root on rationals for the model instance: the exact root when
the value is a square of a rational, `0` otherwise (in particular
`ratSqrt 0 = 0`, and the result is never negative). -/
def ratSqrt (q : ℚ) : ℚ :=
  match exactSqrt q.num.toNat, exactSqrt q.den with
  | some n, some d => if 0 ≤ q.num then (n : ℚ) / (d : ℚ) else 0
  | _, _ => 0

/-- The value of a list of decimal digit characters. -/
def natOfDigits (cs : List Char) : Nat :=
  cs.foldl (fun a c => a * 10 + (c.toNat - 48)) 0

/-- Split a character list at the first dot: the part before it, and the part
after it when a dot is present. -/
def splitAtDot : List Char → List Char × Option (List Char)
  | [] => ([], none)
  | '.' :: t => ([], some t)
  | c :: t =>
    let r := splitAtDot t
    (c :: r.1, r.2)

/-- Decimal parsing for the exact-rational model instance: an optional sign,
then digits with at most one dot and at least one digit in total, as in the
plain decimal form accepted by `std::stof`; anything else (e.g. `"abc"` or an
empty line) is `none`, modelling the `std::invalid_argument` throw. -/
def parseRat (s : String) : Option ℚ :=
  let cs := s.data
  let signed : ℚ × List Char :=
    match cs with
    | '-' :: t => (-1, t)
    | '+' :: t => (1, t)
    | t => (1, t)
  let ip := (splitAtDot signed.2).1
  let fp := ((splitAtDot signed.2).2).getD []
  if (ip ++ fp).isEmpty then none
  else if ip.all Char.isDigit && fp.all Char.isDigit then
    some (signed.1 *
      ((natOfDigits ip : ℚ) + (natOfDigits fp : ℚ) / (10 : ℚ) ^ fp.length))
  else none

/-- The exact-arithmetic model instance of `FPRep`: the template parameter `T`
instantiated with exact rationals, so that concrete pipeline runs can be
evaluated.  `multiplier10` is the exact value `10 ^ N` (exactly representable
in every width for the small `N` the driver uses). -/
def ratRep : FPRep ℚ where
  zero := 0
  add := fun a b => a + b
  sub := fun a b => a - b
  mul := fun a b => a * b
  div := fun a b => a / b
  sqrt := ratSqrt
  round := fun q => ((croundQ q : ℤ) : ℚ)
  ofNat := fun n => (n : ℚ)
  multiplier10 := fun n => (10 : ℚ) ^ n
  parse := parseRat
  le := fun a b => a ≤ b

/-- The three floating-point widths `main` instantiates the templates at:
`float` (32-bit), `double` (64-bit), `long double` (extended, x86 80-bit). -/
inductive FPWidth where
  | f32
  | f64
  | f80
  deriving DecidableEq, Repr

/-- One driver-visible outcome of a combination in `main` (rmssd.cpp:168-199):
a printed result, an error caught by `catch (InvalidArgument &e)` and printed
to `std::cerr`, or an exception not matching that handler, which escapes
`main` and terminates the process. -/
inductive DriverEvent (α : Type) where
  | result (width : FPWidth) (roundTo : Int) (value : α)
  | errorReport (e : RMSSDError)
  | terminated (e : RMSSDError)
  deriving DecidableEq, Repr

/-- Whether `catch (InvalidArgument &e)` at rmssd.cpp:196 catches the
exception carrying this error: the custom `InvalidArgument` class (file-open
failure, too few intervals) is caught; the `std::invalid_argument` /
`std::out_of_range` thrown by `stringToFP` for a malformed sample does not
derive from that custom class, so it is not caught. -/
def caughtByMain : RMSSDError → Bool
  | .malformedSample => false
  | _ => true

/-- One combination of `main`: a width and a `roundTo` argument, evaluated by
`calculateRMSSD` at that width's representation on the fixed source. -/
def evalCombo {α : Type} (repOf : FPWidth → FPRep α) (lines : List String)
    (c : FPWidth × Int) : Except RMSSDError α :=
  calculateRMSSD (repOf c.1) lines c.2

/-- The try-block of `main` over a list of combinations: each successful call
prints its result and the next statement runs; a throw transfers control out
of the try-block, so the remaining combinations are skipped, and the single
handler reports the error (or, for an exception it does not match, the
process terminates). -/
def runCombos {α : Type} (repOf : FPWidth → FPRep α) (lines : List String) :
    List (FPWidth × Int) → List (DriverEvent α)
  | [] => []
  | c :: rest =>
    match evalCombo repOf lines c with
    | .ok v => .result c.1 c.2 v :: runCombos repOf lines rest
    | .error e =>
      if caughtByMain e then [.errorReport e] else [.terminated e]

/-- The six combinations `main` runs, in program order (rmssd.cpp:172-194):
each width without rounding, then each width rounded to 3 decimal places. -/
def mainCombos : List (FPWidth × Int) :=
  [(.f32, -1), (.f64, -1), (.f80, -1), (.f32, 3), (.f64, 3), (.f80, 3)]

/-- The driver `main` on a given source: its six combinations run through the
single try/catch. -/
def runMain {α : Type} (repOf : FPWidth → FPRep α) (lines : List String) :
    List (DriverEvent α) :=
  runCombos repOf lines mainCombos

/-- The kinds of arithmetic steps one calculation performs, for the record of
the width each C++ expression evaluates in. -/
inductive ArithOp where
  | parseStep
  | pow10
  | castToTarget
  | roundStep
  | mulStep
  | divStep
  | subStep
  | addStep
  | sqrtStep
  deriving DecidableEq, Repr

/-- The width each step of one `loadIntervals<T>` line is evaluated in by the
source, paired with its kind: `stringToFP<T>` parses at the target width
(`std::stof` / `std::stod` / `std::stold`, rmssd.cpp:41-54); when rounding is
active, the multiplier is `std::pow(10.0, roundTo)` — a `double` computation
regardless of `T` (rmssd.cpp:83) — followed by the `static_cast<T>` of its
result, and the multiply, `round` overload, and divide at the target width
(rmssd.cpp:84). -/
def loadLineOps (w : FPWidth) (roundTo : Int) : List (ArithOp × FPWidth) :=
  (ArithOp.parseStep, w) ::
    (if 0 ≤ roundTo then
      [(ArithOp.pow10, FPWidth.f64), (ArithOp.castToTarget, w),
        (ArithOp.mulStep, w), (ArithOp.roundStep, w), (ArithOp.divStep, w)]
    else [])

/-- The widths of all steps of `loadIntervals<T>` over `numLines` source
lines. -/
def loadIntervalsOps (w : FPWidth) (roundTo : Int) (numLines : Nat) :
    List (ArithOp × FPWidth) :=
  (List.replicate numLines (loadLineOps w roundTo)).flatten

/-- The widths of all steps of one `calculateRMSSD<T>` call over `numLines`
samples: the load steps, then per difference one subtraction, one squaring
multiply and one summing add (rmssd.cpp:126-148), then the division by the
count and the width-specific square root (rmssd.cpp:149-152), all at the
target width. -/
def calculateOps (w : FPWidth) (roundTo : Int) (numLines : Nat) :
    List (ArithOp × FPWidth) :=
  loadIntervalsOps w roundTo numLines
    ++ List.replicate (numLines - 1) (ArithOp.subStep, w)
    ++ List.replicate (numLines - 1) (ArithOp.mulStep, w)
    ++ List.replicate (numLines - 1) (ArithOp.addStep, w)
    ++ [(ArithOp.divStep, w), (ArithOp.sqrtStep, w)]

/-! ### Helper lemmas -/

theorem diffLoop_some {α : Type} (rep : FPRep α) :
    ∀ (l : List α) (p : α),
      diffLoop rep (some p) l = ((p :: l).zip l).map fun q => rep.sub q.2 q.1
  | [], _ => rfl
  | x :: xs, p => by
    simp only [diffLoop, List.zip_cons_cons, List.map_cons]
    exact congrArg (rep.sub x p :: ·) (diffLoop_some rep xs x)

theorem diffLoop_none {α : Type} (rep : FPRep α) (s : List α) :
    diffLoop rep none s = (s.zip s.tail).map fun q => rep.sub q.2 q.1 := by
  cases s with
  | nil => rfl
  | cons x xs => simpa only [diffLoop, List.tail_cons] using diffLoop_some rep xs x

theorem diffLoop_length {α : Type} (rep : FPRep α) (s : List α) :
    (diffLoop rep none s).length = s.length - 1 := by
  rw [diffLoop_none, List.length_map, List.length_zip, List.length_tail]
  omega

theorem foldl_all_zero {α : Type} (rep : FPRep α)
    (hadd : rep.add rep.zero rep.zero = rep.zero) :
    ∀ l : List α, (∀ x ∈ l, x = rep.zero) → l.foldl rep.add rep.zero = rep.zero
  | [], _ => rfl
  | x :: xs, h => by
    rw [List.foldl_cons, h x (by simp), hadd]
    exact foldl_all_zero rep hadd xs fun y hy => h y (by simp [hy])

theorem foldl_add_nonneg {α : Type} (rep : FPRep α)
    (hadd : ∀ x y, rep.le rep.zero x → rep.le rep.zero y →
      rep.le rep.zero (rep.add x y)) :
    ∀ (l : List α) (acc : α), rep.le rep.zero acc →
      (∀ x ∈ l, rep.le rep.zero x) → rep.le rep.zero (l.foldl rep.add acc)
  | [], _, hacc, _ => hacc
  | x :: xs, acc, hacc, h => by
    rw [List.foldl_cons]
    exact foldl_add_nonneg rep hadd xs _ (hadd acc x hacc (h x (by simp)))
      fun y hy => h y (by simp [hy])

theorem loadIntervals_malformed {α : Type} (rep : FPRep α) (roundTo : Int) :
    ∀ lines : List String, (∃ l ∈ lines, rep.parse l = none) →
      loadIntervals rep lines roundTo = .error .malformedSample
  | [], h => absurd h (by simp)
  | l :: ls, h => by
    rcases ho : rep.parse l with _ | v
    · simp only [loadIntervals, ho]
    · have hls : ∃ x ∈ ls, rep.parse x = none := by
        rcases h with ⟨x, hx, hnone⟩
        rcases List.mem_cons.mp hx with rfl | hx
        · exact absurd hnone (by simp [ho])
        · exact ⟨x, hx, hnone⟩
      simp only [loadIntervals, ho, loadIntervals_malformed rep roundTo ls hls]

theorem runCombos_stop {α : Type} (repOf : FPWidth → FPRep α)
    (lines : List String) (c : FPWidth × Int) (f : FPWidth × Int → α)
    (e : RMSSDError) :
    ∀ pre : List (FPWidth × Int), (∀ c' ∈ pre, evalCombo repOf lines c' = .ok (f c')) →
      evalCombo repOf lines c = .error e → ∀ post : List (FPWidth × Int),
      runCombos repOf lines (pre ++ c :: post) =
        (pre.map fun c' => DriverEvent.result c'.1 c'.2 (f c')) ++
          [if caughtByMain e then DriverEvent.errorReport e
           else DriverEvent.terminated e]
  | [], _, hc, post => by
    simp only [List.nil_append, runCombos, hc, List.map_nil]
    by_cases h : caughtByMain e <;> simp [h]
  | d :: ds, hpre, hc, post => by
    have hd := hpre d (by simp)
    simp only [List.cons_append, runCombos, hd, List.map_cons, List.cons_append]
    exact congrArg (DriverEvent.result d.1 d.2 (f d) :: ·)
      (runCombos_stop repOf lines c f e ds
        (fun c' hm => hpre c' (by simp [hm])) hc post)

theorem ratSqrt_nonneg (q : ℚ) : 0 ≤ ratSqrt q := by
  unfold ratSqrt
  split
  · split
    · positivity
    · exact le_refl 0
  · exact le_refl 0

theorem ratSqrt_zero : ratSqrt 0 = 0 := by
  have h : ratSqrt 0 = ((0 : ℕ) : ℚ) / ((1 : ℕ) : ℚ) := rfl
  rw [h]; norm_num

theorem croundQ_intCast (k : ℤ) : croundQ ((k : ℤ) : ℚ) = k := by
  unfold croundQ
  rcases le_or_lt 0 k with h | h
  · rw [if_pos (by exact_mod_cast h), Int.floor_int_add k (1 / 2 : ℚ)]
    norm_num
  · rw [if_neg (by exact_mod_cast not_le.mpr h),
      show ((k : ℚ) - 1 / 2) = (-1 / 2 : ℚ) + k by ring, Int.ceil_add_int]
    norm_num

theorem ratRound_fix (a : ℚ) : ratRep.round (ratRep.round a) = ratRep.round a := by
  show ((croundQ ((croundQ a : ℤ) : ℚ) : ℤ) : ℚ) = ((croundQ a : ℤ) : ℚ)
  rw [croundQ_intCast]

/-! ### Claim theorems -/

/-- Claim C4: for every sample sequence of length at least 2, the calculator
computes exactly the difference sequence `diff[i-1] = sample[i] − sample[i-1]`,
squares each difference element-wise, sums the squares by left-to-right
accumulation from the representation's exact zero, divides the sum by `n − 1`,
and returns the square root of that mean: the translated loop code
(`rmssdOfIntervals`) returns exactly the spec formula (`rmssdSpec`). -/
theorem rmssd_C4_formula {α : Type} (rep : FPRep α) (s : List α)
    (h : 2 ≤ s.length) :
    rmssdOfIntervals rep s = .ok (rmssdSpec rep s) := by
  simp only [rmssdOfIntervals, if_neg (by omega : ¬ s.length < 2), rmssdSpec,
    diffLoop_none, squareAll]
  rw [List.length_map, List.length_map, List.length_zip, List.length_tail,
    min_eq_right (Nat.sub_le s.length 1)]

/-- Claim C4 witness: the formula equivalence at the concrete sample sequence
`[1, 3]` over the exact-rational model. -/
theorem rmssd_C4_witness :
    2 ≤ ([1, 3] : List ℚ).length ∧
      rmssdOfIntervals ratRep [1, 3] = .ok (rmssdSpec ratRep [1, 3]) :=
  ⟨by decide, rmssd_C4_formula ratRep [1, 3] (by decide)⟩

/-- Claim C5: for every representation and every loaded sample sequence of
length strictly less than 2, the calculation fails with the
InsufficientSamples error and produces no result. -/
theorem rmssd_C5_insufficient {α : Type} (rep : FPRep α) (s : List α)
    (h : s.length < 2) :
    rmssdOfIntervals rep s = .error .insufficientSamples := by
  simp only [rmssdOfIntervals, if_pos h]

/-- Claim C5 witness: the singleton sequence `[5]` over the exact-rational
model fails with InsufficientSamples. -/
theorem rmssd_C5_witness :
    ([5] : List ℚ).length < 2 ∧
      rmssdOfIntervals ratRep [5] = .error .insufficientSamples :=
  ⟨by decide, rmssd_C5_insufficient ratRep [5] (by decide)⟩

/-- Claim C6: for every representation whose operations satisfy the zero
identities that hold at every IEEE width (`0 + 0 = 0`, `0 * 0 = 0`,
`0 / k = 0`, `sqrt 0 = 0`), a sample sequence of length at least 2 in which
every successive difference computed by the difference loop is exactly zero
yields an RMSSD result of exactly zero. -/
theorem rmssd_C6_zeroResult {α : Type} (rep : FPRep α) (s : List α)
    (h2 : 2 ≤ s.length)
    (hdiffs : ∀ d ∈ diffLoop rep none s, d = rep.zero)
    (hmul : rep.mul rep.zero rep.zero = rep.zero)
    (hadd : rep.add rep.zero rep.zero = rep.zero)
    (hdiv : ∀ k : Nat, rep.div rep.zero (rep.ofNat k) = rep.zero)
    (hsqrt : rep.sqrt rep.zero = rep.zero) :
    rmssdOfIntervals rep s = .ok rep.zero := by
  have hsq : ∀ x ∈ squareAll rep (diffLoop rep none s), x = rep.zero := by
    intro x hx
    rcases List.mem_map.mp hx with ⟨d, hd, rfl⟩
    rw [hdiffs d hd, hmul]
  simp only [rmssdOfIntervals, if_neg (by omega : ¬ s.length < 2),
    foldl_all_zero rep hadd _ hsq, hdiv, hsqrt]

/-- Claim C6 witness: the constant sequence `[2, 2, 2]` over the
exact-rational model, whose differences are all zero, gives exactly zero. -/
theorem rmssd_C6_witness :
    (∀ d ∈ diffLoop ratRep none [2, 2, 2], d = ratRep.zero) ∧
      ratRep.mul ratRep.zero ratRep.zero = ratRep.zero ∧
      ratRep.add ratRep.zero ratRep.zero = ratRep.zero ∧
      (∀ k : Nat, ratRep.div ratRep.zero (ratRep.ofNat k) = ratRep.zero) ∧
      ratRep.sqrt ratRep.zero = ratRep.zero ∧
      rmssdOfIntervals ratRep [2, 2, 2] = .ok ratRep.zero := by
  have hdiffs : ∀ d ∈ diffLoop ratRep none [2, 2, 2], d = ratRep.zero := by
    have h : diffLoop ratRep none [2, 2, 2] = [(2 : ℚ) - 2, (2 : ℚ) - 2] := rfl
    rw [h]; norm_num [ratRep]
  have hmul : ratRep.mul ratRep.zero ratRep.zero = ratRep.zero := by
    show (0 : ℚ) * 0 = 0; norm_num
  have hadd : ratRep.add ratRep.zero ratRep.zero = ratRep.zero := by
    show (0 : ℚ) + 0 = 0; norm_num
  have hdiv : ∀ k : Nat, ratRep.div ratRep.zero (ratRep.ofNat k) = ratRep.zero :=
    fun k => zero_div ((k : ℕ) : ℚ)
  have hsqrt : ratRep.sqrt ratRep.zero = ratRep.zero := ratSqrt_zero
  exact ⟨hdiffs, hmul, hadd, hdiv, hsqrt,
    rmssd_C6_zeroResult ratRep [2, 2, 2] (by decide) hdiffs hmul hadd hdiv hsqrt⟩

/-- Claim C7: for every representation whose multiply and divide by the
`10^N` multiplier are exact inverses and whose rounding function is idempotent
(the exact-arithmetic reading of the rounding step), applying the loader's
rounding step `round(value * 10^N) / 10^N` to a sequence whose elements are
already the result of that rounding step yields an identical sequence. -/
theorem rmssd_C7_idempotent {α : Type} (rep : FPRep α) (roundTo : Int)
    (hN : 0 ≤ roundTo)
    (hinv : ∀ a, rep.mul (rep.div a (rep.multiplier10 roundTo.toNat))
      (rep.multiplier10 roundTo.toNat) = a)
    (hfix : ∀ a, rep.round (rep.round a) = rep.round a)
    (xs : List α) :
    (xs.map (applyRound rep roundTo)).map (applyRound rep roundTo) =
      xs.map (applyRound rep roundTo) := by
  rw [List.map_map]
  apply List.map_congr_left
  intro v _
  show applyRound rep roundTo (applyRound rep roundTo v) = applyRound rep roundTo v
  simp only [applyRound, if_pos hN]
  rw [hinv (rep.round (rep.mul v (rep.multiplier10 roundTo.toNat))), hfix]

/-- Claim C7 witness: rounding to 2 decimal places over the exact-rational
model is idempotent on the concrete sequence `[3/2, 5]`. -/
theorem rmssd_C7_witness :
    (0 : Int) ≤ 2 ∧
      (∀ a : ℚ, ratRep.mul (ratRep.div a (ratRep.multiplier10 (2 : Int).toNat))
        (ratRep.multiplier10 (2 : Int).toNat) = a) ∧
      (∀ a : ℚ, ratRep.round (ratRep.round a) = ratRep.round a) ∧
      (([3 / 2, 5] : List ℚ).map (applyRound ratRep 2)).map (applyRound ratRep 2) =
        ([3 / 2, 5] : List ℚ).map (applyRound ratRep 2) := by
  have hinv : ∀ a : ℚ, ratRep.mul (ratRep.div a (ratRep.multiplier10 (2 : Int).toNat))
      (ratRep.multiplier10 (2 : Int).toNat) = a := by
    intro a
    show a / (10 : ℚ) ^ (2 : Int).toNat * (10 : ℚ) ^ (2 : Int).toNat = a
    exact div_mul_cancel₀ a (by norm_num)
  exact ⟨by decide, hinv, ratRound_fix,
    rmssd_C7_idempotent ratRep 2 (by decide) hinv ratRound_fix [3 / 2, 5]⟩

/-- Claim C8: for every representation whose operations preserve
non-negativity the way every IEEE width does (squares are non-negative, sums
and quotients of non-negatives are non-negative, the square root of a
non-negative is non-negative), every successful calculation on a sample
sequence of length at least 2 returns a non-negative RMSSD result. -/
theorem rmssd_C8_nonneg {α : Type} (rep : FPRep α) (s : List α) (r : α)
    (hsq : ∀ x, rep.le rep.zero (rep.mul x x))
    (hadd : ∀ x y, rep.le rep.zero x → rep.le rep.zero y →
      rep.le rep.zero (rep.add x y))
    (hdiv : ∀ x k, rep.le rep.zero x → rep.le rep.zero (rep.div x (rep.ofNat k)))
    (hsqrt : ∀ x, rep.le rep.zero x → rep.le rep.zero (rep.sqrt x))
    (hzero : rep.le rep.zero rep.zero)
    (h2 : 2 ≤ s.length)
    (hok : rmssdOfIntervals rep s = .ok r) :
    rep.le rep.zero r := by
  simp only [rmssdOfIntervals, if_neg (by omega : ¬ s.length < 2),
    Except.ok.injEq] at hok
  subst hok
  apply hsqrt
  apply hdiv
  apply foldl_add_nonneg rep hadd _ _ hzero
  intro x hx
  rcases List.mem_map.mp hx with ⟨d, _, rfl⟩
  exact hsq d

/-- Claim C8 witness: the calculation on `[1, 3]` over the exact-rational
model returns `2`, which is non-negative. -/
theorem rmssd_C8_witness :
    rmssdOfIntervals ratRep [1, 3] = .ok 2 ∧ ratRep.le ratRep.zero 2 := by
  have hok : rmssdOfIntervals ratRep [1, 3] = .ok 2 := by
    have h : rmssdOfIntervals ratRep [1, 3] =
        .ok (ratSqrt ((0 + ((3 : ℚ) - 1) * ((3 : ℚ) - 1)) / ((1 : ℕ) : ℚ))) := rfl
    have h4 : ((0 + ((3 : ℚ) - 1) * ((3 : ℚ) - 1)) / ((1 : ℕ) : ℚ)) = 4 := by
      norm_num
    have hs : ratSqrt 4 = ((2 : ℕ) : ℚ) / ((1 : ℕ) : ℚ) := rfl
    rw [h, h4, hs]; norm_num
  refine ⟨hok, rmssd_C8_nonneg ratRep [1, 3] 2 ?_ ?_ ?_ ?_ ?_ (by decide) hok⟩
  · exact fun x => mul_self_nonneg x
  · exact fun x y hx hy => add_nonneg hx hy
  · exact fun x k hx => div_nonneg hx (Nat.cast_nonneg k)
  · exact fun x _ => ratSqrt_nonneg x
  · exact le_refl (0 : ℚ)

/-- Claim C9: for every source whose lines all parse successfully, the loader
returns exactly one sample per input line, in input-line order: the result is
the per-line parse (with the rounding step applied) mapped over the lines. -/
theorem rmssd_C9_order {α : Type} (rep : FPRep α) (roundTo : Int) :
    ∀ lines : List String, (∀ l ∈ lines, (rep.parse l).isSome = true) →
      loadIntervals rep lines roundTo =
        .ok (lines.map fun l => applyRound rep roundTo ((rep.parse l).getD rep.zero))
  | [], _ => rfl
  | l :: ls, h => by
    rcases ho : rep.parse l with _ | v
    · exact absurd (h l (by simp)) (by simp [ho])
    · simp only [loadIntervals, ho,
        rmssd_C9_order rep roundTo ls fun x hx => h x (by simp [hx]),
        List.map_cons, Option.getD_some]

/-- Claim C9 witness: loading the two-line source `["12", "7"]` over the
exact-rational model yields exactly its per-line parses in order. -/
theorem rmssd_C9_witness :
    (∀ l ∈ ["12", "7"], (ratRep.parse l).isSome = true) ∧
      loadIntervals ratRep ["12", "7"] (-1) =
        .ok (["12", "7"].map fun l =>
          applyRound ratRep (-1) ((ratRep.parse l).getD ratRep.zero)) :=
  ⟨by decide, rmssd_C9_order ratRep (-1) ["12", "7"] (by decide)⟩

/-- Claim C10: for every negative `roundTo` argument (not only the documented
sentinel `-1`), the loader applies no rounding: the `roundTo >= 0` test at
rmssd.cpp:81 makes every negative value behave exactly like `-1`. -/
theorem rmssd_C10_negativeRound {α : Type} (rep : FPRep α) (roundTo : Int)
    (h : roundTo < 0) :
    ∀ lines : List String,
      loadIntervals rep lines roundTo = loadIntervals rep lines (-1)
  | [] => rfl
  | l :: ls => by
    simp only [loadIntervals, rmssd_C10_negativeRound rep roundTo h ls]
    cases rep.parse l with
    | none => rfl
    | some v =>
      cases loadIntervals rep ls (-1) with
      | error e => rfl
      | ok rest =>
        simp only [applyRound, if_neg (by omega : ¬ (0 : Int) ≤ roundTo),
          if_neg (by omega : ¬ (0 : Int) ≤ -1)]

/-- Claim C10 witness: loading `["3"]` with `roundTo = -7` gives the same
result as with the documented sentinel `-1`. -/
theorem rmssd_C10_witness :
    (-7 : Int) < 0 ∧
      loadIntervals ratRep ["3"] (-7) = loadIntervals ratRep ["3"] (-1) :=
  ⟨by decide, rmssd_C10_negativeRound ratRep (-7) (by decide) ["3"]⟩

/-- Claim C1 counterexample: the claim that every arithmetic step of one
calculation is performed in exactly the requested representation's width is
false at the concrete configuration (float, rounding to 3 places, 2 lines):
the `10^N` multiplier is computed by `std::pow(10.0, roundTo)` at 64-bit
`double` width (rmssd.cpp:83), not at the requested 32-bit width. -/
theorem rmssd_C1_counterexample :
    ¬ ∀ s ∈ calculateOps FPWidth.f32 3 2, s.2 = FPWidth.f32 := by decide

/-- Claim C1 (amended): every arithmetic step of one calculation — parsing,
rounding, differencing, summation, division, and square root — is performed
in exactly the requested representation's width, except the computation of
the `10^N` multiplier, which is always performed at 64-bit `double` width and
then converted to the requested representation by `static_cast<T>`. -/
theorem rmssd_C1_widths (w : FPWidth) (roundTo : Int) (n : Nat)
    (s : ArithOp × FPWidth) (hs : s ∈ calculateOps w roundTo n) :
    s.2 = if s.1 = ArithOp.pow10 then FPWidth.f64 else w := by
  simp only [calculateOps, List.mem_append] at hs
  rcases hs with ((((hs | hs) | hs) | hs) | hs)
  · unfold loadIntervalsOps at hs
    rcases List.mem_flatten.mp hs with ⟨l, hl, hm⟩
    obtain rfl := (List.mem_replicate.mp hl).2
    unfold loadLineOps at hm
    rcases List.mem_cons.mp hm with rfl | hm
    · rfl
    · by_cases hr : 0 ≤ roundTo
      · rw [if_pos hr] at hm
        fin_cases hm <;> rfl
      · rw [if_neg hr] at hm
        exact absurd hm (List.not_mem_nil s)
  · obtain rfl := (List.mem_replicate.mp hs).2
    rfl
  · obtain rfl := (List.mem_replicate.mp hs).2
    rfl
  · obtain rfl := (List.mem_replicate.mp hs).2
    rfl
  · fin_cases hs <;> rfl

/-- Claim C1 witness: the squaring multiply of the (long double, 3 places,
3 lines) configuration is performed at the requested extended width. -/
theorem rmssd_C1_witness :
    (ArithOp.mulStep, FPWidth.f80) ∈ calculateOps FPWidth.f80 3 3 ∧
      (ArithOp.mulStep, FPWidth.f80).2 =
        if (ArithOp.mulStep, FPWidth.f80).1 = ArithOp.pow10 then FPWidth.f64
        else FPWidth.f80 :=
  ⟨by decide, rmssd_C1_widths FPWidth.f80 3 3 (ArithOp.mulStep, FPWidth.f80)
    (by decide)⟩

/-- Claim C2 counterexample: the claim that after one combination's failure
every remaining combination is still evaluated and reported is false at the
concrete empty source: all six combinations share one try/catch block
(rmssd.cpp:168-199), so the first failure (InsufficientSamples at the float
combination) produces a single report and the other five combinations are
never evaluated — the run emits 1 event, not one per combination. -/
theorem rmssd_C2_counterexample :
    (runMain (fun _ => ratRep) ([] : List String)).length ≠ mainCombos.length := by
  decide

/-- Claim C2 (amended): the driver evaluates its combinations sequentially
inside a single try/catch; every combination before the first failure is
evaluated and its result reported, and at the first failing combination the
error is caught and reported when it is the custom InvalidArgument exception
(file-open failure, too few samples) or terminates the process when it is not
(a parse error); in both cases every remaining combination is skipped. -/
theorem rmssd_C2_driver {α : Type} (repOf : FPWidth → FPRep α)
    (lines : List String) (pre post : List (FPWidth × Int))
    (c : FPWidth × Int) (f : FPWidth × Int → α) (e : RMSSDError)
    (hsplit : mainCombos = pre ++ c :: post)
    (hpre : ∀ c' ∈ pre, evalCombo repOf lines c' = .ok (f c'))
    (hc : evalCombo repOf lines c = .error e) :
    runMain repOf lines =
      (pre.map fun c' => DriverEvent.result c'.1 c'.2 (f c')) ++
        [if caughtByMain e then DriverEvent.errorReport e
         else DriverEvent.terminated e] := by
  rw [runMain, hsplit]
  exact runCombos_stop repOf lines c f e pre hpre hc post

/-- Claim C2 witness: on the empty source the first combination (float, no
rounding) fails with InsufficientSamples, which the driver catches and
reports, and the run stops there. -/
theorem rmssd_C2_witness :
    evalCombo (fun _ => ratRep) ([] : List String) (FPWidth.f32, -1) =
        .error .insufficientSamples ∧
      runMain (fun _ => ratRep) ([] : List String) =
        [DriverEvent.errorReport RMSSDError.insufficientSamples] :=
  ⟨rfl, rmssd_C2_driver (fun _ => ratRep) [] []
    [(.f64, -1), (.f80, -1), (.f32, 3), (.f64, 3), (.f80, 3)]
    (FPWidth.f32, -1) (fun _ => 0) RMSSDError.insufficientSamples rfl
    (by simp) rfl⟩

/-- Claim C3 counterexample: the claim that a malformed line's error is
surfaced to and reported by the driver is false at the concrete one-line
source `["abc"]`: `std::stof` throws `std::invalid_argument`, which does not
derive from the custom `InvalidArgument` class that `main` catches
(rmssd.cpp:196), so no error report event is ever emitted — the process
terminates with the exception uncaught. -/
theorem rmssd_C3_counterexample :
    DriverEvent.errorReport RMSSDError.malformedSample ∉
      runMain (fun _ => ratRep) ["abc"] := by decide

/-- Claim C3 (amended): a source containing a line that does not parse for
the first combination's representation makes that combination's calculation
fail with a MalformedSample error; because that error is thrown as
`std::invalid_argument`, which the driver's `catch (InvalidArgument &)`
handler does not match, the run terminates at the first combination with the
exception uncaught: no error report is printed and no further combination is
processed. -/
theorem rmssd_C3_uncaught {α : Type} (repOf : FPWidth → FPRep α)
    (lines : List String)
    (h : ∃ l ∈ lines, (repOf FPWidth.f32).parse l = none) :
    runMain repOf lines = [DriverEvent.terminated RMSSDError.malformedSample] := by
  have hload := loadIntervals_malformed (repOf FPWidth.f32) (-1) lines h
  show runCombos repOf lines mainCombos = _
  rw [mainCombos]
  simp only [runCombos, evalCombo, calculateRMSSD, hload]
  rfl

/-- Claim C3 witness: on the one-line source `["abc"]`, whose line does not
parse, the whole run is a single uncaught-termination event. -/
theorem rmssd_C3_witness :
    (∃ l ∈ ["abc"], (((fun _ => ratRep) FPWidth.f32 : FPRep ℚ).parse l) = none) ∧
      runMain (fun _ => ratRep) ["abc"] =
        [DriverEvent.terminated RMSSDError.malformedSample] :=
  ⟨⟨"abc", by simp, rfl⟩,
    rmssd_C3_uncaught (fun _ => ratRep) ["abc"] ⟨"abc", by simp, rfl⟩⟩
